import Mathlib

/-!
Verification development for the insurtech insight pipeline
(`streamlit_app.py` / `streamlit_app_final.py`).

Python strings are embedded as `List Char`.  `json.loads` is embedded as an
executable recursive-descent parser over the JSON grammar used by Python's
`json` module (objects, arrays, strings with escapes, numbers, literals,
and the `NaN`/`Infinity` constants), with surrounding whitespace ignored.
Numbers are kept as their source tokens: none of the verified components
ever compares numeric values, so the `1 == 1.0` identification made by
Python is irrelevant here.
-/

namespace InsurTech

/-- JSON whitespace characters recognised by Python's decoder
(space, tab, newline, carriage return). -/
def isJsonWs (c : Char) : Bool :=
  c = ' ' || c = '\t' || c = '\n' || c = '\r'

/-- Drop leading JSON whitespace. -/
def skipWs : List Char → List Char
  | [] => []
  | c :: cs => if isJsonWs c then skipWs cs else c :: cs

/-- Remove leading and trailing JSON whitespace. -/
def trimWs (l : List Char) : List Char :=
  ((l.dropWhile isJsonWs).reverse.dropWhile isJsonWs).reverse

/-- Fuel-driven core of Python's `str.replace(pat, rep)`: scan left to right,
replacing non-overlapping occurrences of `pat`.  A fuel of at least the
input length is always sufficient, since every step consumes at least one
character. -/
def replaceAllF (pat rep : List Char) : Nat → List Char → List Char
  | 0, l => l
  | Nat.succ f, l =>
    match l with
    | [] => []
    | c :: rest =>
      if !pat.isEmpty && pat.isPrefixOf (c :: rest) then
        rep ++ replaceAllF pat rep f ((c :: rest).drop pat.length)
      else
        c :: replaceAllF pat rep f rest

/-- Python's `str.replace(pat, rep)` for a non-empty pattern (the code only
replaces the fixed non-empty patterns "```json" and "```"). -/
def replaceAll (pat rep l : List Char) : List Char :=
  replaceAllF pat rep l.length l

mutual

/-- Embedded JSON values.  Number tokens are kept verbatim. -/
inductive JVal : Type where
  | null : JVal
  | bool : Bool → JVal
  | str : List Char → JVal
  | num : List Char → JVal
  | arr : JArr → JVal
  | obj : JObj → JVal
deriving DecidableEq

/-- Element list of a JSON array. -/
inductive JArr : Type where
  | nil : JArr
  | cons : JVal → JArr → JArr
deriving DecidableEq

/-- Member list of a JSON object, in source order. -/
inductive JObj : Type where
  | nil : JObj
  | cons : List Char → JVal → JObj → JObj
deriving DecidableEq

end

/-- Build an array payload from a list. -/
def JArr.ofList : List JVal → JArr
  | [] => .nil
  | x :: xs => .cons x (JArr.ofList xs)

/-- The elements of an array payload. -/
def JArr.toList : JArr → List JVal
  | .nil => []
  | .cons x xs => x :: JArr.toList xs

/-- Build an object payload from a key/value list. -/
def JObj.ofList : List (List Char × JVal) → JObj
  | [] => .nil
  | (k, v) :: xs => .cons k v (JObj.ofList xs)

/-- Python `dict.get`: with duplicate keys in the source text, the decoder
keeps the last binding, so lookup prefers the rightmost match. -/
def JObj.find : JObj → List Char → Option JVal
  | .nil, _ => none
  | .cons k v tl, key =>
    match JObj.find tl key with
    | some w => some w
    | none => if k = key then some v else none

/-- Single-character escape sequences accepted inside JSON strings. -/
def escChar (c : Char) : Option Char :=
  if c = '"' then some '"'
  else if c = '\\' then some '\\'
  else if c = '/' then some '/'
  else if c = 'b' then some (Char.ofNat 8)
  else if c = 'f' then some (Char.ofNat 12)
  else if c = 'n' then some '\n'
  else if c = 'r' then some '\r'
  else if c = 't' then some '\t'
  else none

/-- Value of a hexadecimal digit. -/
def hexVal (c : Char) : Option Nat :=
  if '0' ≤ c ∧ c ≤ '9' then some (c.toNat - 48)
  else if 'a' ≤ c ∧ c ≤ 'f' then some (c.toNat - 87)
  else if 'A' ≤ c ∧ c ≤ 'F' then some (c.toNat - 55)
  else none

/-- Parse the body of a JSON string (input starts after the opening quote);
returns the decoded characters and the rest after the closing quote.
Unescaped control characters are rejected, as in Python's strict mode. -/
def parseStringBody : List Char → Option (List Char × List Char)
  | [] => none
  | c :: rest =>
    if c = '"' then some ([], rest)
    else if c = '\\' then
      match rest with
      | [] => none
      | e :: rest1 =>
        if e = 'u' then
          match rest1 with
          | h1 :: h2 :: h3 :: h4 :: rest2 =>
            match hexVal h1, hexVal h2, hexVal h3, hexVal h4 with
            | some a, some b, some c2, some d =>
              (parseStringBody rest2).map
                (fun p => (Char.ofNat (((a * 16 + b) * 16 + c2) * 16 + d) :: p.1, p.2))
            | _, _, _, _ => none
          | _ => none
        else
          match escChar e with
          | some ec => (parseStringBody rest1).map (fun p => (ec :: p.1, p.2))
          | none => none
    else if c.toNat < 32 then none
    else (parseStringBody rest).map (fun p => (c :: p.1, p.2))

/-- Split off a maximal run of decimal digits. -/
def takeDigits : List Char → List Char × List Char
  | [] => ([], [])
  | c :: rest =>
    if c.isDigit then
      let p := takeDigits rest
      (c :: p.1, p.2)
    else ([], c :: rest)

/-- Integer part of a JSON number: `0` or a nonzero digit followed by digits. -/
def parseIntPart : List Char → Option (List Char × List Char)
  | [] => none
  | c :: rest =>
    if c = '0' then some (['0'], rest)
    else if c.isDigit then
      let p := takeDigits rest
      some (c :: p.1, p.2)
    else none

/-- Optional fraction part `.[0-9]+`; consumes nothing if absent. -/
def parseFrac (l : List Char) : List Char × List Char :=
  match l with
  | c :: rest =>
    if c = '.' then
      match takeDigits rest with
      | ([], _) => ([], l)
      | (ds, r) => (c :: ds, r)
    else ([], l)
  | [] => ([], [])

/-- Optional exponent part `[eE][+-]?[0-9]+`; consumes nothing if absent. -/
def parseExp (l : List Char) : List Char × List Char :=
  match l with
  | c :: rest =>
    if c = 'e' ∨ c = 'E' then
      match rest with
      | s :: rest1 =>
        if s = '+' ∨ s = '-' then
          match takeDigits rest1 with
          | ([], _) => ([], l)
          | (ds, r) => (c :: s :: ds, r)
        else
          match takeDigits rest with
          | ([], _) => ([], l)
          | (ds, r) => (c :: ds, r)
      | [] => ([], l)
    else ([], l)
  | [] => ([], [])

/-- A JSON number token, per the regular expression used by Python's decoder:
`-?(0|[1-9][0-9]*)(\.[0-9]+)?([eE][+-]?[0-9]+)?`. -/
def parseNumberTok (l : List Char) : Option (List Char × List Char) :=
  match l with
  | c :: rest =>
    if c = '-' then
      (parseIntPart rest).map (fun p =>
        let fr := parseFrac p.2
        let ex := parseExp fr.2
        (c :: p.1 ++ fr.1 ++ ex.1, ex.2))
    else
      (parseIntPart l).map (fun p =>
        let fr := parseFrac p.2
        let ex := parseExp fr.2
        (p.1 ++ fr.1 ++ ex.1, ex.2))
  | [] => none

/-- Consume an expected literal suffix. -/
def dropLit : List Char → List Char → Option (List Char)
  | [], l => some l
  | _ :: _, [] => none
  | e :: es, c :: cs => if c = e then dropLit es cs else none

mutual

/-- Parse one JSON value.  Fuel decreases on every nested call; the top
level supplies ample fuel (twice the input length). -/
def parseVal : Nat → List Char → Option (JVal × List Char)
  | 0, _ => none
  | Nat.succ f, l =>
    match l with
    | [] => none
    | c :: rest =>
      if c = '"' then (parseStringBody rest).map (fun p => (JVal.str p.1, p.2))
      else if c = '\x7b' then parseObjFirst f (skipWs rest)
      else if c = '[' then parseArrFirst f (skipWs rest)
      else if c = 't' then (dropLit ("rue".data) rest).map (fun r => (JVal.bool true, r))
      else if c = 'f' then (dropLit ("alse".data) rest).map (fun r => (JVal.bool false, r))
      else if c = 'n' then (dropLit ("ull".data) rest).map (fun r => (JVal.null, r))
      else if c = 'N' then (dropLit ("aN".data) rest).map (fun r => (JVal.num ("NaN".data), r))
      else if c = 'I' then
        (dropLit ("nfinity".data) rest).map (fun r => (JVal.num ("Infinity".data), r))
      else if c = '-' then
        match rest with
        | 'I' :: rest1 =>
          (dropLit ("nfinity".data) rest1).map (fun r => (JVal.num ("-Infinity".data), r))
        | _ => (parseNumberTok l).map (fun p => (JVal.num p.1, p.2))
      else (parseNumberTok l).map (fun p => (JVal.num p.1, p.2))

/-- Inside an array, just after `[` (whitespace already skipped). -/
def parseArrFirst : Nat → List Char → Option (JVal × List Char)
  | 0, _ => none
  | Nat.succ f, l =>
    match l with
    | [] => none
    | c :: _ =>
      if c = ']' then some (JVal.arr JArr.nil, l.tail)
      else
        match parseVal f l with
        | some (v, r1) => parseArrRest f [v] (skipWs r1)
        | none => none

/-- Inside an array, after at least one element (whitespace already
skipped); expects `,` or `]`. -/
def parseArrRest : Nat → List JVal → List Char → Option (JVal × List Char)
  | 0, _, _ => none
  | Nat.succ f, acc, l =>
    match l with
    | [] => none
    | c :: rest =>
      if c = ']' then some (JVal.arr (JArr.ofList acc.reverse), rest)
      else if c = ',' then
        match parseVal f (skipWs rest) with
        | some (v, r1) => parseArrRest f (v :: acc) (skipWs r1)
        | none => none
      else none

/-- Inside an object, just after the opening brace (whitespace already
skipped); expects a key string or the closing brace. -/
def parseObjFirst : Nat → List Char → Option (JVal × List Char)
  | 0, _ => none
  | Nat.succ f, l =>
    match l with
    | [] => none
    | c :: rest =>
      if c = '\x7d' then some (JVal.obj JObj.nil, rest)
      else if c = '"' then
        match parseStringBody rest with
        | some (k, r1) => parseMember f [] k r1
        | none => none
      else none

/-- Inside an object, after a key; expects `:` then a value. -/
def parseMember : Nat → List (List Char × JVal) → List Char → List Char →
    Option (JVal × List Char)
  | 0, _, _, _ => none
  | Nat.succ f, acc, k, l =>
    match skipWs l with
    | ':' :: r1 =>
      match parseVal f (skipWs r1) with
      | some (v, r2) => parseObjRest f ((k, v) :: acc) (skipWs r2)
      | none => none
    | _ => none

/-- Inside an object, after a member (whitespace already skipped);
expects `,` or the closing brace. -/
def parseObjRest : Nat → List (List Char × JVal) → List Char →
    Option (JVal × List Char)
  | 0, _, _ => none
  | Nat.succ f, acc, l =>
    match l with
    | [] => none
    | c :: rest =>
      if c = '\x7d' then some (JVal.obj (JObj.ofList acc.reverse), rest)
      else if c = ',' then
        match skipWs rest with
        | '"' :: r1 =>
          match parseStringBody r1 with
          | some (k, r2) => parseMember f acc k r2
          | none => none
        | _ => none
      else none

end

/-- Decode a whitespace-trimmed document: parse one value and require only
whitespace after it. -/
def jsonLoadsCore (t : List Char) : Option JVal :=
  match parseVal (2 * t.length + 2) t with
  | some (v, rest) => if rest.all isJsonWs then some v else none
  | none => none

/-- Python's `json.loads`: surrounding whitespace is ignored, the document
must be exactly one JSON value. -/
def jsonLoads (l : List Char) : Option JVal :=
  jsonLoadsCore (trimWs l)

/-- The fence marker "```json". -/
def fenceJson : List Char := "```json".data

/-- The fence marker "```". -/
def fence : List Char := "```".data

/-- `raw.replace("```json", "").replace("```", "")` from
`extract_json_fields` / `extract_entities`. -/
def stripFences (l : List Char) : List Char :=
  replaceAll fence [] (replaceAll fenceJson [] l)

instance {ε α : Type} [DecidableEq ε] [DecidableEq α] : DecidableEq (Except ε α)
  | Except.ok x, Except.ok y =>
    if h : x = y then isTrue (by rw [h])
    else isFalse (fun hh => h (by cases hh; rfl))
  | Except.ok _, Except.error _ => isFalse (fun hh => Except.noConfusion hh)
  | Except.error _, Except.ok _ => isFalse (fun hh => Except.noConfusion hh)
  | Except.error d, Except.error e =>
    if h : d = e then isTrue (by rw [h])
    else isFalse (fun hh => h (by cases hh; rfl))

/-- A raw cell of the 原始输出 column: either a string, or a non-text value
(such as the NaN a CSV reader produces for an empty cell), on which
`raw.replace` raises before any parse is attempted, landing in the
`except` branch. -/
inductive Raw : Type where
  | s : List Char → Raw
  | nonText : Raw
deriving DecidableEq

/-- The field name 情绪 (sentiment). -/
def sentimentKey : List Char := "情绪".data

/-- The field name 观点 (opinion). -/
def opinionKey : List Char := "观点".data

/-- The field name 关键词 (keywords). -/
def keywordKey : List Char := "关键词".data

/-- The field name 主体 (entities). -/
def subjectKey : List Char := "主体".data

/-- The sentinel 解析失败 (parse failed). -/
def failLabel : List Char := "解析失败".data

/-- The sentinel 未提取 (not extracted). -/
def missingLabel : List Char := "未提取".data

/-- Parse one raw cell the way the loop body does: strip the fence markers,
then `json.loads`. -/
def loadsRecord : Raw → Option JVal
  | Raw.s raw => jsonLoads (stripFences raw)
  | Raw.nonText => none

/-- Per-record contribution of one iteration of the `extract_json_fields`
loop: the value appended to `sentiments`, the value appended to `opinions`,
the elements appended to `keywords_all`, and the entries appended to
`subjects` (zero or one — the code only calls `subjects.append` when the
主体 value passes `isinstance(ents, list)`, and skips the call otherwise).
A parse failure or a non-object document makes `content.get` raise, so the
`except` branch appends the two sentinels and one empty subject list. -/
def contribOfParse : Option JVal → JVal × JVal × List JVal × List (List JVal)
  | some (JVal.obj kvs) =>
    ( (kvs.find sentimentKey).getD (JVal.str missingLabel)
    , (kvs.find opinionKey).getD (JVal.str [])
    , match (kvs.find keywordKey).getD (JVal.arr JArr.nil) with
      | JVal.arr xs => xs.toList
      | _ => []
    , match (kvs.find subjectKey).getD (JVal.arr JArr.nil) with
      | JVal.arr xs => [xs.toList]
      | _ => [] )
  | _ => (JVal.str failLabel, JVal.str [], [], [[]])

/-- One iteration of the `extract_json_fields` loop. -/
def recordContribution (r : Raw) : JVal × JVal × List JVal × List (List JVal) :=
  contribOfParse (loadsRecord r)

/-- The four lists built by `extract_json_fields`. -/
structure Extracted where
  sentiments : List JVal
  opinions : List JVal
  keywords_all : List JVal
  subjects : List (List JVal)
deriving DecidableEq

/-- `extract_json_fields(df)`: fold the loop body over the 原始输出 column. -/
def extract_json_fields : List Raw → Extracted
  | [] => ⟨[], [], [], []⟩
  | r :: rest =>
    let c := recordContribution r
    let e := extract_json_fields rest
    ⟨c.1 :: e.sentiments, c.2.1 :: e.opinions,
     c.2.2.1 ++ e.keywords_all, c.2.2.2 ++ e.subjects⟩

/-- pandas' message when a column assignment's length mismatches the table. -/
def lengthErrMsg : List Char :=
  "Length of values does not match length of index".data

/-- The analytical table: the three derived columns that line 41 assigns
back into the DataFrame. -/
structure CorpusTable where
  sentiments : List JVal
  opinions : List JVal
  subjects : List (List JVal)
deriving DecidableEq

/-- Line 41, `df["情绪"], df["观点"], all_keywords, df["主体"] = ...`: the
three column assignments require each list's length to equal the table's
row count (pandas raises `ValueError` otherwise); `all_keywords` is a plain
variable and is unconstrained. -/
def assignColumns (raws : List Raw) : Except (List Char) (CorpusTable × List JVal) :=
  let e := extract_json_fields raws
  if e.sentiments.length = raws.length ∧ e.opinions.length = raws.length ∧
      e.subjects.length = raws.length then
    Except.ok (⟨e.sentiments, e.opinions, e.subjects⟩, e.keywords_all)
  else Except.error lengthErrMsg

/-- The object members of a successfully parsed record; `none` when the
try-block raises (parse failure or non-object document). -/
def parsedObj (r : Raw) : Option JObj :=
  match loadsRecord r with
  | some (JVal.obj kvs) => some kvs
  | _ => none

/-- Pairs contributed by one record to `extract_entities` (lines 138–149):
one `(e, sentiment)` pair per element of a list-valued 主体 field; a
non-list 主体, a parse failure, or a non-object document contributes
nothing (`continue`). -/
def recordPairs (r : Raw) : List (JVal × JVal) :=
  match parsedObj r with
  | some kvs =>
    match (kvs.find subjectKey).getD (JVal.arr JArr.nil) with
    | JVal.arr xs =>
      xs.toList.map (fun e => (e, (kvs.find sentimentKey).getD (JVal.str missingLabel)))
    | _ => []
  | none => []

/-- `extract_entities(df)`: the flattened (entity, sentiment) pair list. -/
def extract_entities : List Raw → List (JVal × JVal)
  | [] => []
  | r :: rest => recordPairs r ++ extract_entities rest

/-- One cell of the entity × sentiment pivot
(`groupby(["主体","情绪"]).size().unstack(fill_value=0)`). -/
def matrixEntry (ps : List (JVal × JVal)) (e s : JVal) : Nat :=
  ps.countP (fun p => decide (p.1 = e ∧ p.2 = s))

/-- Total mentions of one entity: the pair count that the pivot's row sum
must reproduce. -/
def entityCount (ps : List (JVal × JVal)) (e : JVal) : Nat :=
  ps.countP (fun p => decide (p.1 = e))

/-- Result of the entity-sentiment aggregation step. -/
inductive MatrixResult : Type where
  | empty : MatrixResult
  | matrix : List (JVal × JVal) → MatrixResult
deriving DecidableEq

/-- The `if not ent_df.empty` guard (lines 152–160): an empty pair list
takes the explicit fallback branch (the 未成功提取公司主体 message), never
an exception. -/
def entityView (raws : List Raw) : MatrixResult :=
  let ps := extract_entities raws
  if ps.isEmpty then MatrixResult.empty else MatrixResult.matrix ps

/-- Keys of a Python `Counter` (a dict), in first-insertion order. -/
def firstSeen : List JVal → List JVal
  | [] => []
  | x :: xs => x :: (firstSeen xs).filter (fun y => decide (y ≠ x))

/-- `Counter(all_keywords)` as an association list in insertion order. -/
def counterItems (l : List JVal) : List (JVal × Nat) :=
  (firstSeen l).map (fun k => (k, l.count k))

/-- Descending-count comparison used by `most_common`: Python sorts the
counter items by count, descending, with a stable sort, so ties keep
first-insertion order. -/
def cntGE (x y : JVal × Nat) : Prop := y.2 ≤ x.2

instance : DecidableRel cntGE := fun x y => Nat.decLe y.2 x.2

instance : IsTotal (JVal × Nat) cntGE := ⟨fun a b => Nat.le_total b.2 a.2⟩

instance : IsTrans (JVal × Nat) cntGE := ⟨fun _ _ _ h1 h2 => Nat.le_trans h2 h1⟩

/-- `Counter(l).most_common(n)`: stable sort by descending count, truncated
to the first `n` entries. -/
def most_common (n : Nat) (l : List JVal) : List (JVal × Nat) :=
  (List.insertionSort cntGE (counterItems l)).take n

/-- Fixed-width window check for the pattern `\d{4}-\d{2}-\d{2}` at the
current position (`\d` is embedded as the ASCII digit test; the verified
inputs contain no non-ASCII digits). -/
def dateAt (l : List Char) : Option (List Char) :=
  match l with
  | y1 :: y2 :: y3 :: y4 :: s1 :: m1 :: m2 :: s2 :: d1 :: d2 :: _ =>
    if y1.isDigit && y2.isDigit && y3.isDigit && y4.isDigit && s1 == '-' &&
        m1.isDigit && m2.isDigit && s2 == '-' && d1.isDigit && d2.isDigit then
      some [y1, y2, y3, y4, s1, m1, m2, s2, d1, d2]
    else none
  | _ => none

/-- `extract_date`: `re.search(r"(\d{4}-\d{2}-\d{2})", text)` — the
leftmost match wins, `None` when there is no match anywhere. -/
def extract_date : List Char → Option (List Char)
  | [] => none
  | c :: rest =>
    match dateAt (c :: rest) with
    | some d => some d
    | none => extract_date rest

/-- Lexicographic key order used by `groupby(["日期", "情绪"])` when pandas
sorts the group keys: date ascending, then sentiment ascending (Python
string comparison is code-point order, the `List Char` linear order). -/
def keyLE (a b : List Char × List Char) : Prop :=
  a.1 < b.1 ∨ (a.1 = b.1 ∧ a.2 ≤ b.2)

instance : DecidableRel keyLE := fun a b => by unfold keyLE; infer_instance

instance : IsTotal (List Char × List Char) keyLE :=
  ⟨fun a b => by
    rcases lt_trichotomy a.1 b.1 with h | h | h
    · exact Or.inl (Or.inl h)
    · rcases le_total a.2 b.2 with h2 | h2
      · exact Or.inl (Or.inr ⟨h, h2⟩)
      · exact Or.inr (Or.inr ⟨h.symm, h2⟩)
    · exact Or.inr (Or.inl h)⟩

instance : IsTrans (List Char × List Char) keyLE :=
  ⟨fun a b c hab hbc => by
    rcases hab with h1 | ⟨e1, l1⟩
    · rcases hbc with h2 | ⟨e2, l2⟩
      · exact Or.inl (lt_trans h1 h2)
      · exact Or.inl (e2 ▸ h1)
    · rcases hbc with h2 | ⟨e2, l2⟩
      · exact Or.inl (e1 ▸ h2)
      · exact Or.inr ⟨e1.trans e2, le_trans l1 l2⟩⟩

instance : BEq (List Char × List Char) := instBEqOfDecidableEq

instance : LawfulBEq (List Char × List Char) where
  eq_of_beq := of_decide_eq_true
  rfl := of_decide_eq_self_eq_true _

/-- The dated rows, keyed by (date, sentiment):
`df.dropna(subset=["日期"])` keeps exactly the rows whose 日期 is present. -/
def datedKeys (rows : List (Option (List Char) × List Char)) :
    List (List Char × List Char) :=
  rows.filterMap (fun r => r.1.map (fun d => (d, r.2)))

/-- `groupby(["日期","情绪"]).size()` over the dated rows: one (key, count)
entry per distinct key, with the keys sorted. -/
def trend (rows : List (Option (List Char) × List Char)) :
    List ((List Char × List Char) × Nat) :=
  (List.insertionSort keyLE (datedKeys rows).dedup).map
    (fun k => (k, (datedKeys rows).count k))

/-- Word characters for sklearn's default token pattern `\b\w\w+\b`: ASCII
alphanumerics, underscore, and any character above 127 (an approximation of
Python's unicode `\w`; no verified claim depends on the exact unicode
classification). -/
def isWordChar (c : Char) : Bool :=
  c.isAlphanum || c = '_' || decide (128 ≤ c.toNat)

/-- Maximal word-character runs (`cur` accumulates the current run in
reverse). -/
def tokenRunsAux : List Char → List Char → List (List Char)
  | cur, [] => if cur.isEmpty then [] else [cur.reverse]
  | cur, c :: rest =>
    if isWordChar c then tokenRunsAux (c :: cur) rest
    else if cur.isEmpty then tokenRunsAux [] rest
    else cur.reverse :: tokenRunsAux [] rest

/-- sklearn tokenization: lowercase, then keep the maximal word-character
runs of length at least two. -/
def tokensOf (doc : List Char) : List (List Char) :=
  (tokenRunsAux [] (doc.map Char.toLower)).filter (fun t => decide (2 ≤ t.length))

/-- The vectorizer's built-in English stop-word list (`stop_words="english"`)
is frozen inside sklearn, outside this repository; no verified claim
depends on its exact contents (the exercised inputs contain no stop words),
so a representative portion stands in for it. -/
def englishStop : List (List Char) :=
  ["a", "an", "and", "are", "as", "at", "be", "but", "by", "for", "if",
   "in", "into", "is", "it", "no", "not", "of", "on", "or", "such", "that",
   "the", "their", "then", "there", "these", "they", "this", "to", "was",
   "will", "with"].map String.data

/-- Terms of one document after tokenization and stop-word removal. -/
def termsOf (doc : List Char) : List (List Char) :=
  (tokensOf doc).filter (fun t => decide (t ∉ englishStop))

/-- sklearn's `ValueError` message for an all-empty corpus. -/
def emptyVocabMsg : List Char :=
  "empty vocabulary; perhaps the documents only contain stop words".data

/-- sklearn's `ValueError` message when there are fewer samples than
clusters. -/
def nSamplesMsg : List Char := "n_samples should be >= n_clusters".data

/-- Python's `AttributeError` when a non-string reaches `lower()`. -/
def noLowerMsg : List Char := "object has no attribute lower".data

/-- Ranking used by `max_features`: count descending, ties alphabetical. -/
def vocabRank (x y : List Char × Nat) : Prop :=
  y.2 < x.2 ∨ (x.2 = y.2 ∧ x.1 ≤ y.1)

instance : DecidableRel vocabRank := fun x y => by unfold vocabRank; infer_instance

/-- Alphabetical (code-point) order on terms. -/
def alphaLE (x y : List Char) : Prop := x ≤ y

instance : DecidableRel alphaLE := fun x y => by unfold alphaLE; infer_instance

/-- The vocabulary of `TfidfVectorizer(stop_words="english",
max_features=100)`: distinct corpus terms, truncated to the 100 with the
highest corpus counts, listed in sorted order. -/
def buildVocab (docs : List (List Char)) : List (List Char) :=
  let terms := (docs.map termsOf).flatten
  let ranked :=
    List.insertionSort vocabRank (terms.dedup.map (fun t => (t, terms.count t)))
  List.insertionSort alphaLE ((ranked.take 100).map Prod.fst)

/-- Exact fractions (numerator over positive denominator), compared by
cross-multiplication and never normalised, so every operation is plain
integer arithmetic and kernel-computable.  They stand in for the
real-valued arithmetic of the clustering step. -/
structure Frac where
  num : Int
  den : Int
deriving DecidableEq

/-- Embed a count. -/
def Frac.ofNat (n : Nat) : Frac := ⟨Int.ofNat n, 1⟩

/-- Fraction addition. -/
def Frac.add (a b : Frac) : Frac := ⟨a.num * b.den + b.num * a.den, a.den * b.den⟩

/-- Fraction subtraction. -/
def Frac.sub (a b : Frac) : Frac := ⟨a.num * b.den - b.num * a.den, a.den * b.den⟩

/-- Fraction multiplication. -/
def Frac.mul (a b : Frac) : Frac := ⟨a.num * b.num, a.den * b.den⟩

/-- Division by a (positive) natural number. -/
def Frac.divNat (a : Frac) (n : Nat) : Frac := ⟨a.num, a.den * Int.ofNat n⟩

/-- Value comparison (denominators are positive by construction). -/
def Frac.lt (a b : Frac) : Bool := decide (a.num * b.den < b.num * a.den)

/-- Value equality. -/
def Frac.eqv (a b : Frac) : Bool := decide (a.num * b.den = b.num * a.den)

/-- Coordinatewise value equality of two vectors. -/
def vecEqv (u v : List Frac) : Bool :=
  u.length == v.length && (List.zipWith Frac.eqv u v).all id

/-- `fit_transform`: one vector per document, one coordinate per vocabulary
term; raises on an empty vocabulary.  sklearn computes tf-idf weights and
l2-normalises in floating point; the verified claims depend only on the
vector layout and on determinism, never on the weights, so plain term
counts stand in for the weighted values. -/
def fit_transform (docs : List (List Char)) : Except (List Char) (List (List Frac)) :=
  let vocab := buildVocab docs
  if vocab.isEmpty then Except.error emptyVocabMsg
  else
    Except.ok (docs.map (fun d => vocab.map (fun t => Frac.ofNat ((termsOf d).count t))))

/-- Squared euclidean distance. -/
def sqDist (u v : List Frac) : Frac :=
  (List.zipWith (fun a b => Frac.mul (Frac.sub a b) (Frac.sub a b)) u v).foldl
    Frac.add (Frac.ofNat 0)

/-- Scan the remaining centroids keeping the best (a strictly smaller
distance is needed to improve, so ties keep the lowest index, as
`argmin`). -/
def nearestAux (v : List Frac) : List (List Frac) → Nat → Frac → Nat → Nat
  | [], _, _, best => best
  | c :: cs, i, bd, best =>
    if Frac.lt (sqDist c v) bd then nearestAux v cs (i + 1) (sqDist c v) i
    else nearestAux v cs (i + 1) bd best

/-- Index of the nearest centroid. -/
def nearestIdx (cents : List (List Frac)) (v : List Frac) : Nat :=
  match cents with
  | [] => 0
  | c :: cs => nearestAux v cs 1 (sqDist c v) 0

/-- Assign every sample to its nearest centroid. -/
def assignAll (cents X : List (List Frac)) : List Nat :=
  X.map (nearestIdx cents)

/-- Coordinate-wise sum of a list of vectors. -/
def vecSum : List (List Frac) → List Frac
  | [] => []
  | p :: ps => ps.foldl (fun acc v => List.zipWith Frac.add acc v) p

/-- Mean of a non-empty list of vectors. -/
def centroidOf (pts : List (List Frac)) : List Frac :=
  (vecSum pts).map (fun q => Frac.divNat q pts.length)

/-- New centroids from an assignment; a cluster that received no points
keeps its previous centroid (sklearn re-seeds empty clusters from distant
points — a different deterministic choice; the verified claims depend only
on determinism and on the label range). -/
def newCentroids (k : Nat) (cents : List (List Frac)) (labels : List Nat)
    (X : List (List Frac)) : List (List Frac) :=
  (List.range k).map (fun i =>
    let pts := (labels.zip X).filterMap (fun p => if p.1 = i then some p.2 else none)
    if pts.isEmpty then cents.getD i [] else centroidOf pts)

/-- Lloyd iterations under the solver's iteration cap (`max_iter = 300`),
stopping when the centroids are stable in value (zero centroid shift). -/
def kmeansIter : Nat → List (List Frac) → List (List Frac) → List Nat
  | 0, cents, X => assignAll cents X
  | Nat.succ f, cents, X =>
    let labels := assignAll cents X
    let cents' := newCentroids cents.length cents labels X
    if (List.zipWith vecEqv cents' cents).all id then labels
    else kmeansIter f cents' X

/-- `KMeans(n_clusters=k, random_state=42).fit_predict(X)`.  The seeded
initialisation is a fixed deterministic function of the input; it is
modelled as taking the first `k` samples as the initial centroids. -/
def kmeansFitPredict (k : Nat) (X : List (List Frac)) : List Nat :=
  kmeansIter 300 (X.take k) X

/-- The opinion column after `fillna("")`, as fed to the vectorizer: `None`
(JSON null) becomes the empty string; any other non-string value reaches
`lower()` inside the vectorizer and raises. -/
def opinionDoc : JVal → Except (List Char) (List Char)
  | JVal.str s => Except.ok s
  | JVal.null => Except.ok []
  | _ => Except.error noLowerMsg

/-- Apply `opinionDoc` across the column, propagating the first failure. -/
def opinionDocs : List JVal → Except (List Char) (List (List Char))
  | [] => Except.ok []
  | v :: vs => do
    let d ← opinionDoc v
    let ds ← opinionDocs vs
    pure (d :: ds)

/-- Lines 110–114: vectorize `df["观点"].fillna("")` and run
`KMeans(n_clusters=4, random_state=42).fit_predict`; sklearn raises on an
empty vocabulary and when the sample count is below the cluster count. -/
def clusterOpinions (ops : List JVal) : Except (List Char) (List Nat) := do
  let docs ← opinionDocs ops
  let X ← fit_transform docs
  if X.length < 4 then Except.error nSamplesMsg
  else pure (kmeansFitPredict 4 X)

/-- Wrap a document in markdown code fences the way the upstream model
does ("```json", newline, document, newline, "```"). -/
def wrapFence (s : List Char) : List Char :=
  fenceJson ++ '\n' :: (s ++ '\n' :: fence)

/-- Does the try-block of the loop body raise for this raw string?  True
when `json.loads` fails or when the document is not an object (so that
`content.get` raises `AttributeError`). -/
def isParseFailure (raw : List Char) : Bool :=
  match jsonLoads (stripFences raw) with
  | some (JVal.obj _) => false
  | _ => true

/-- The sentiment label a successfully parsed record carries (the value
produced by `content.get("情绪", "未提取")`); `none` for records whose
parse raises. -/
def recordSentiment (r : Raw) : Option JVal :=
  (parsedObj r).map (fun kvs => (kvs.find sentimentKey).getD (JVal.str missingLabel))

/-- Example: a record whose 主体 field holds a non-list value. -/
def rawSubjectNonList : List Char := "\x7b\"主体\": \"x\"\x7d".data

/-- Example: a record with a non-list 关键词 and a non-list 主体. -/
def rawBothNonList : List Char := "\x7b\"关键词\": \"k1\", \"主体\": 7\x7d".data

/-- Example: a raw string that is not valid JSON. -/
def rawUnparseable : List Char := "broken output".data

/-- Example: a string with fence markers in its interior. -/
def rawInteriorFences : List Char := "a```json b``` c".data

/-- Example: two records whose keyword lists flatten to a, b, a, c, b, a. -/
def rawsKeywordExample : List Raw :=
  [Raw.s ("\x7b\"关键词\": [\"a\", \"b\"]\x7d".data),
   Raw.s ("\x7b\"关键词\": [\"a\", \"c\", \"b\", \"a\"]\x7d".data)]

/-- Example: entity/sentiment pairs — X twice, Y once. -/
def pairsExample : List (JVal × JVal) :=
  [(JVal.str ("X".data), JVal.str ("正面".data)),
   (JVal.str ("X".data), JVal.str ("负面".data)),
   (JVal.str ("Y".data), JVal.str ("正面".data))]

/-- Example: the sentiment labels observed in `pairsExample`. -/
def labelsExample : Finset JVal :=
  {JVal.str ("正面".data), JVal.str ("负面".data)}

/-- Example: a record carrying the literal 解析失败 string in its
sentiment field while parsing successfully. -/
def rawLiteralFailLabel : List Char :=
  "\x7b\"主体\": [\"X\"], \"情绪\": \"解析失败\"\x7d".data

/-- Example article body with a date token. -/
def bodyA : List Char := "发布于 2024-01-02 的报道".data

/-- Example article body with an earlier date token. -/
def bodyB : List Char := "发布于 2024-01-01 的报道".data

/-- Example article body without a date token. -/
def bodyC : List Char := "没有日期的报道".data

/-- Example timeline rows built from the three bodies. -/
def timelineRowsExample : List (Option (List Char) × List Char) :=
  [(extract_date bodyA, "正面".data), (extract_date bodyB, "正面".data),
   (extract_date bodyC, "负面".data)]

/-- Example: four opinions with disjoint vocabularies. -/
def opinionsExample : List JVal :=
  [JVal.str ("alpha beta".data), JVal.str ("gamma delta".data),
   JVal.str ("epsilon zeta".data), JVal.str ("eta theta".data)]

/-!  Lemmas about `replaceAll`, leading to the fence-stripping claim. -/

lemma replaceAllF_nil (pat rep : List Char) : ∀ f, replaceAllF pat rep f [] = []
  | 0 => rfl
  | Nat.succ _ => rfl

lemma replaceAllF_cons (pat rep : List Char) (f : Nat) (c : Char) (rest : List Char) :
    replaceAllF pat rep (Nat.succ f) (c :: rest) =
      if !pat.isEmpty && pat.isPrefixOf (c :: rest) then
        rep ++ replaceAllF pat rep f ((c :: rest).drop pat.length)
      else c :: replaceAllF pat rep f rest := rfl

lemma replaceAllF_fuel (pat rep : List Char) :
    ∀ f g l, l.length ≤ f → l.length ≤ g →
      replaceAllF pat rep f l = replaceAllF pat rep g l := by
  intro f
  induction f with
  | zero =>
    intro g l hf _
    have hl : l = [] := List.length_eq_zero.mp (Nat.le_zero.mp hf)
    subst hl
    simp [replaceAllF_nil]
  | succ f ih =>
    intro g l hf hg
    cases l with
    | nil => simp [replaceAllF_nil]
    | cons c rest =>
      cases g with
      | zero => simp at hg
      | succ g' =>
        rw [replaceAllF_cons, replaceAllF_cons]
        by_cases hp : (!pat.isEmpty && pat.isPrefixOf (c :: rest)) = true
        · have hpat : 1 ≤ pat.length := by
            cases pat with
            | nil => simp at hp
            | cons a as => simp
          rw [if_pos hp, if_pos hp]
          have h1 : ((c :: rest).drop pat.length).length ≤ f := by
            simp only [List.length_drop, List.length_cons]
            simp only [List.length_cons] at hf
            omega
          have h2 : ((c :: rest).drop pat.length).length ≤ g' := by
            simp only [List.length_drop, List.length_cons]
            simp only [List.length_cons] at hg
            omega
          rw [ih _ _ h1 h2]
        · rw [if_neg hp, if_neg hp]
          have h1 : rest.length ≤ f := by
            simp only [List.length_cons] at hf
            omega
          have h2 : rest.length ≤ g' := by
            simp only [List.length_cons] at hg
            omega
          rw [ih _ _ h1 h2]

lemma replaceAll_nil (pat rep : List Char) : replaceAll pat rep [] = [] := rfl

lemma replaceAll_pos (pat rep l : List Char) (hne : pat ≠ [])
    (hp : pat.isPrefixOf l = true) :
    replaceAll pat rep l = rep ++ replaceAll pat rep (l.drop pat.length) := by
  have hpat : 1 ≤ pat.length := by
    cases pat with
    | nil => exact absurd rfl hne
    | cons a as => simp
  cases l with
  | nil =>
    cases pat with
    | nil => exact absurd rfl hne
    | cons a as => simp [List.isPrefixOf] at hp
  | cons c rest =>
    have hcond : (!pat.isEmpty && pat.isPrefixOf (c :: rest)) = true := by
      rw [Bool.and_eq_true]
      refine ⟨?_, hp⟩
      cases pat with
      | nil => exact absurd rfl hne
      | cons a as => simp
    show replaceAllF pat rep (c :: rest).length (c :: rest) = _
    rw [show (c :: rest).length = Nat.succ rest.length from rfl]
    rw [replaceAllF_cons, if_pos hcond]
    congr 1
    apply replaceAllF_fuel
    · simp only [List.length_drop, List.length_cons]
      omega
    · exact Nat.le_refl _

lemma replaceAll_neg (pat rep : List Char) (c : Char) (rest : List Char)
    (hp : pat.isPrefixOf (c :: rest) = false) :
    replaceAll pat rep (c :: rest) = c :: replaceAll pat rep rest := by
  show replaceAllF pat rep (c :: rest).length (c :: rest) = _
  rw [show (c :: rest).length = Nat.succ rest.length from rfl]
  rw [replaceAllF_cons, if_neg (by simp [hp])]
  rfl

lemma isPrefixOf_cons_mem (pat : List Char) (c : Char) (t : List Char)
    (h : pat.isPrefixOf (c :: t) = true) (hne : pat ≠ []) : c ∈ pat := by
  cases pat with
  | nil => exact absurd rfl hne
  | cons a as =>
    simp only [List.isPrefixOf, Bool.and_eq_true, beq_iff_eq] at h
    exact h.1 ▸ List.mem_cons_self a as

lemma replaceAll_cons_nl (pat rep : List Char) (hne : pat ≠ [])
    (hnl : ('\n' : Char) ∉ pat) (t : List Char) :
    replaceAll pat rep ('\n' :: t) = '\n' :: replaceAll pat rep t := by
  apply replaceAll_neg
  cases hb : pat.isPrefixOf ('\n' :: t) with
  | false => rfl
  | true => exact absurd (isPrefixOf_cons_mem pat '\n' t hb hne) hnl

lemma replaceAll_append_nl (pat rep : List Char) (hne : pat ≠ [])
    (hnl : ('\n' : Char) ∉ pat) :
    ∀ (n : Nat) (s t : List Char), s.length ≤ n →
      replaceAll pat rep (s ++ '\n' :: t) =
        replaceAll pat rep s ++ '\n' :: replaceAll pat rep t := by
  intro n
  induction n with
  | zero =>
    intro s t hs
    have hl : s = [] := List.length_eq_zero.mp (Nat.le_zero.mp hs)
    subst hl
    simp only [List.nil_append, replaceAll_nil]
    exact replaceAll_cons_nl pat rep hne hnl t
  | succ n ih =>
    intro s t hs
    cases s with
    | nil =>
      simp only [List.nil_append, replaceAll_nil]
      exact replaceAll_cons_nl pat rep hne hnl t
    | cons c s' =>
      have hpat : 1 ≤ pat.length := by
        cases pat with
        | nil => exact absurd rfl hne
        | cons a as => simp
      by_cases hp : pat.isPrefixOf ((c :: s') ++ '\n' :: t) = true
      · have hlen : pat.length ≤ (c :: s').length := by
          by_contra hgt
          push_neg at hgt
          have hpre : pat <+: (c :: s') ++ '\n' :: t :=
            List.isPrefixOf_iff_prefix.mp hp
          have htake := List.prefix_iff_eq_take.mp hpre
          have hget : pat[(c :: s').length]? = some '\n' := by
            rw [htake, List.getElem?_take_of_lt hgt,
              List.getElem?_append_right (Nat.le_refl _)]
            simp
          exact hnl (List.getElem?_mem hget)
        have hpre1 : pat.isPrefixOf (c :: s') = true := by
          rw [List.isPrefixOf_iff_prefix, List.prefix_iff_eq_take]
          have := List.prefix_iff_eq_take.mp (List.isPrefixOf_iff_prefix.mp hp)
          rw [List.take_append_of_le_length hlen] at this
          exact this
        rw [replaceAll_pos pat rep _ hne hp, replaceAll_pos pat rep _ hne hpre1]
        rw [List.drop_append_of_le_length hlen]
        rw [ih _ t (by
          simp only [List.length_drop, List.length_cons]
          simp only [List.length_cons] at hs
          omega)]
        simp [List.append_assoc]
      · have hpb : pat.isPrefixOf ((c :: s') ++ '\n' :: t) = false := by
          cases hb : pat.isPrefixOf ((c :: s') ++ '\n' :: t) with
          | false => rfl
          | true => exact absurd hb hp
        have hp' : pat.isPrefixOf (c :: s') = false := by
          cases hb : pat.isPrefixOf (c :: s') with
          | false => rfl
          | true =>
            exfalso
            apply hp
            rw [List.isPrefixOf_iff_prefix] at hb ⊢
            exact hb.trans (List.prefix_append _ _)
        have hcons : (c :: s') ++ '\n' :: t = c :: (s' ++ '\n' :: t) := rfl
        rw [hcons, replaceAll_neg pat rep c _ (by rw [← hcons]; exact hpb)]
        rw [ih s' t (by
          simp only [List.length_cons] at hs
          omega)]
        rw [replaceAll_neg pat rep c s' hp']
        rfl

lemma stripFences_wrap (s : List Char) :
    stripFences (wrapFence s) = '\n' :: (stripFences s ++ ['\n']) := by
  have hneJ : fenceJson ≠ [] := by decide
  have hnlJ : ('\n' : Char) ∉ fenceJson := by decide
  have hneF : fence ≠ [] := by decide
  have hnlF : ('\n' : Char) ∉ fence := by decide
  have step1 : replaceAll fenceJson [] (wrapFence s) =
      '\n' :: (replaceAll fenceJson [] s ++ '\n' :: fence) := by
    unfold wrapFence
    rw [replaceAll_pos fenceJson [] _ hneJ
      (List.isPrefixOf_iff_prefix.mpr (List.prefix_append _ _))]
    rw [List.drop_left]
    rw [replaceAll_cons_nl fenceJson [] hneJ hnlJ]
    rw [replaceAll_append_nl fenceJson [] hneJ hnlJ s.length s _ (Nat.le_refl _)]
    rw [show replaceAll fenceJson [] fence = fence from by decide]
    rfl
  unfold stripFences
  rw [step1]
  rw [replaceAll_cons_nl fence [] hneF hnlF]
  rw [replaceAll_append_nl fence [] hneF hnlF _ _ _ (Nat.le_refl _)]
  rw [show replaceAll fence [] fence = [] from by decide]

lemma trimWs_cons_nl (w : List Char) : trimWs ('\n' :: w) = trimWs w := by
  unfold trimWs
  rw [List.dropWhile_cons]
  simp [isJsonWs]

lemma trimWs_append_nl (w : List Char) : trimWs (w ++ ['\n']) = trimWs w := by
  unfold trimWs
  rw [List.dropWhile_append]
  by_cases he : (w.dropWhile isJsonWs).isEmpty = true
  · rw [if_pos he]
    have hw : w.dropWhile isJsonWs = [] := by
      cases hd : w.dropWhile isJsonWs with
      | nil => rfl
      | cons a l => rw [hd] at he; simp at he
    rw [hw]
    simp [isJsonWs]
  · rw [if_neg he]
    rw [List.reverse_append]
    simp only [List.reverse_cons, List.reverse_nil, List.nil_append,
      List.singleton_append, List.dropWhile_cons]
    simp [isJsonWs]

lemma jsonLoads_wrap (s : List Char) :
    jsonLoads (stripFences (wrapFence s)) = jsonLoads (stripFences s) := by
  rw [stripFences_wrap]
  unfold jsonLoads
  congr 1
  rw [trimWs_cons_nl, trimWs_append_nl]

/-- C4: for every string s, parsing s wrapped in markdown code fences
(` ```json `, newline, s, newline, ` ``` `) yields exactly the same
per-record result — sentiment, opinion, keyword contribution, entity
contribution — as parsing the unwrapped s; and the fence markers are
removed wherever they occur in the string, not only at the boundaries
(here: in the interior of a string). -/
theorem fenced_parses_identically :
    (∀ s : List Char,
      recordContribution (Raw.s (wrapFence s)) = recordContribution (Raw.s s)) ∧
    stripFences rawInteriorFences = ("a b c").data := by
  constructor
  · intro s
    show contribOfParse (jsonLoads (stripFences (wrapFence s))) =
      contribOfParse (jsonLoads (stripFences s))
    rw [jsonLoads_wrap]
  · decide

/-- C1: the claim states that parsing yields exactly one Insight per input
record — every derived column as long as the input — and that no exception
escapes the batch.  On a record whose 主体 field holds a non-list value
the code skips `subjects.append`, so one input record yields an empty
entities column, and the subsequent DataFrame column assignment (line 41)
raises pandas' length-mismatch `ValueError`. -/
theorem entity_column_desync :
    (extract_json_fields [Raw.s rawSubjectNonList]).subjects.length = 0 ∧
    (extract_json_fields [Raw.s rawSubjectNonList]).sentiments.length = 1 ∧
    assignColumns [Raw.s rawSubjectNonList] = Except.error lengthErrMsg := by
  decide

/-- C2: with a structurally valid document whose 关键词 and 主体 fields
hold non-list values, the keyword field indeed contributes nothing to the
flattened multiset, but the entity field is not "treated as absent": the
code appends no entities entry at all (instead of the empty set the claim
requires), so the entities column loses the record and the batch then
raises at the column assignment. -/
theorem nonlist_fields_dropped :
    isParseFailure rawBothNonList = false ∧
    extract_json_fields [Raw.s rawBothNonList] =
      ⟨[JVal.str missingLabel], [JVal.str []], [], []⟩ ∧
    assignColumns [Raw.s rawBothNonList] = Except.error lengthErrMsg := by
  decide

/-- C3: the claim states that with fewer non-empty opinions than k the
clusterer still terminates with empty clusters; the code raises instead —
a single-record table with an empty opinion makes the vectorizer raise on
an empty vocabulary, and a table with usable text but fewer than four rows
makes KMeans raise its sample-count check. -/
theorem cluster_small_corpus_raises :
    clusterOpinions (extract_json_fields [Raw.s rawUnparseable]).opinions =
      Except.error emptyVocabMsg ∧
    clusterOpinions [JVal.str ("alpha beta".data)] = Except.error nSamplesMsg := by
  decide

/-- C5: every raw string whose document fails to parse as an object yields
the sentinel row — sentiment 解析失败, opinion the empty string, no
keyword contribution, an empty entity set — and the loop body never
raises. -/
theorem parse_failure_yields_sentinels (raw : List Char)
    (h : isParseFailure raw = true) :
    recordContribution (Raw.s raw) =
      (JVal.str failLabel, JVal.str [], [], [[]]) := by
  unfold isParseFailure at h
  show contribOfParse (jsonLoads (stripFences raw)) = _
  cases hj : jsonLoads (stripFences raw) with
  | none => rfl
  | some v =>
    rw [hj] at h
    cases v <;> first | rfl | simp at h

/-- C5 witness: the sentinel row at a concrete unparseable input. -/
theorem parse_failure_yields_sentinels_witness :
    recordContribution (Raw.s rawUnparseable) =
      (JVal.str failLabel, JVal.str [], [], [[]]) :=
  parse_failure_yields_sentinels rawUnparseable (by decide)

/-- C10 counterexample: a successfully parsed record whose sentiment field
literally holds the string 解析失败 puts the sentinel into the flattened
pair list, so the sentinel can appear as a column of the entity-sentiment
matrix. -/
theorem sentinel_column_reachable :
    isParseFailure rawLiteralFailLabel = false ∧
    (extract_entities [Raw.s rawLiteralFailLabel]).map Prod.snd =
      [JVal.str failLabel] := by
  decide

/-- C10 (amended): a record whose raw_output fails to parse contributes no
pairs at all to the entity aggregation, and every sentiment that appears
in the flattened pair list (hence as a matrix column) is the sentiment
label of some successfully parsed record — so the 解析失败 sentinel can
appear as a column only when a successfully parsed record literally
carries it in the sentiment field. -/
theorem failed_records_contribute_no_pairs :
    (∀ r : Raw, parsedObj r = none → recordPairs r = []) ∧
    (∀ (raws : List Raw) (p : JVal × JVal), p ∈ extract_entities raws →
      p.2 ∈ raws.filterMap recordSentiment) := by
  constructor
  · intro r h
    unfold recordPairs
    rw [h]
  · intro raws
    induction raws with
    | nil =>
      intro p hp
      simp [extract_entities] at hp
    | cons r rest ih =>
      intro p hp
      simp only [extract_entities] at hp
      rcases List.mem_append.mp hp with h1 | h2
      · cases hpo : parsedObj r with
        | none =>
          have hrp : recordPairs r = [] := by
            unfold recordPairs
            rw [hpo]
          rw [hrp] at h1
          simp at h1
        | some kvs =>
          have hrp : recordPairs r =
              (match (kvs.find subjectKey).getD (JVal.arr JArr.nil) with
               | JVal.arr xs =>
                 xs.toList.map
                   (fun e => (e, (kvs.find sentimentKey).getD (JVal.str missingLabel)))
               | _ => []) := by
            unfold recordPairs
            rw [hpo]
          rw [hrp] at h1
          have hrs : recordSentiment r =
              some ((kvs.find sentimentKey).getD (JVal.str missingLabel)) := by
            unfold recordSentiment
            rw [hpo]
            rfl
          cases hfind : (kvs.find subjectKey).getD (JVal.arr JArr.nil) with
          | arr xs =>
            rw [hfind] at h1
            rcases List.mem_map.mp h1 with ⟨e, _, hpe⟩
            have hsnd : p.2 = (kvs.find sentimentKey).getD (JVal.str missingLabel) := by
              rw [← hpe]
            rw [List.filterMap_cons, hrs, hsnd]
            exact List.mem_cons_self _ _
          | null => rw [hfind] at h1; simp at h1
          | bool b => rw [hfind] at h1; simp at h1
          | str s => rw [hfind] at h1; simp at h1
          | num t => rw [hfind] at h1; simp at h1
          | obj o => rw [hfind] at h1; simp at h1
      · rw [List.filterMap_cons]
        cases hrs : recordSentiment r with
        | none => exact ih p h2
        | some v => exact List.mem_cons_of_mem _ (ih p h2)

/-- C10 witness: the amended theorem at concrete inputs — an unparseable
record contributes no pairs, and the sentinel column of the
counterexample's matrix is accounted for by the successfully parsed
record's own sentiment field. -/
theorem failed_records_contribute_no_pairs_witness :
    recordPairs (Raw.s rawUnparseable) = [] ∧
    (JVal.str ("X".data), JVal.str failLabel).2 ∈
      [Raw.s rawLiteralFailLabel].filterMap recordSentiment :=
  ⟨failed_records_contribute_no_pairs.1 (Raw.s rawUnparseable) (by decide),
   failed_records_contribute_no_pairs.2 [Raw.s rawLiteralFailLabel]
     (JVal.str ("X".data), JVal.str failLabel) (by decide)⟩

/-- C6: keyword ranking returns the top N (default 20) entries of the
counter ordered by descending occurrence count — the ranked output is
sorted under the descending-count relation for every input — and on the
keyword multiset a, b, a, c, b, a flattened from the example records it
returns exactly a:3, b:2, c:1 in that order (stability: the stable sort
keeps first-seen order among equal counts). -/
theorem keyword_ranking_descending_stable :
    (∀ (l : List JVal) (n : Nat), List.Sorted cntGE (most_common n l)) ∧
    most_common 20 (extract_json_fields rawsKeywordExample).keywords_all =
      [(JVal.str ("a".data), 3), (JVal.str ("b".data), 2),
       (JVal.str ("c".data), 1)] ∧
    most_common 20 [JVal.str ("b".data), JVal.str ("a".data),
        JVal.str ("b".data), JVal.str ("a".data)] =
      [(JVal.str ("b".data), 2), (JVal.str ("a".data), 2)] := by
  refine ⟨?_, ?_, ?_⟩
  · intro l n
    exact List.Pairwise.sublist (List.take_sublist n _)
      (List.sorted_insertionSort cntGE (counterItems l))
  · decide
  · decide

/-- C7: in the entity-sentiment matrix, the row sum of an entity over any
label set covering the observed sentiments equals the number of pairs that
entity contributed to the flattened pair list; absent combinations are
zero-filled; and an empty flattened pair list yields the explicit
empty-result state instead of an exception. -/
theorem entity_matrix_row_sums :
    (∀ (ps : List (JVal × JVal)) (e : JVal) (S : Finset JVal),
        (∀ p ∈ ps, p.2 ∈ S) →
        (∑ s ∈ S, matrixEntry ps e s) = entityCount ps e) ∧
    (∀ (ps : List (JVal × JVal)) (e s : JVal),
        (∀ p ∈ ps, ¬(p.1 = e ∧ p.2 = s)) → matrixEntry ps e s = 0) ∧
    (∀ raws : List Raw, extract_entities raws = [] →
        entityView raws = MatrixResult.empty) := by
  refine ⟨?_, ?_, ?_⟩
  · intro ps e S hS
    induction ps with
    | nil => simp [matrixEntry, entityCount]
    | cons p ps ih =>
      have hmem : p.2 ∈ S := hS p (List.mem_cons_self p ps)
      have hS' : ∀ q ∈ ps, q.2 ∈ S := fun q hq => hS q (List.mem_cons_of_mem p hq)
      simp only [matrixEntry, entityCount, List.countP_cons] at ih ⊢
      rw [Finset.sum_add_distrib, ih hS']
      congr 1
      simp only [decide_eq_true_eq]
      by_cases he : p.1 = e
      · rw [if_pos he]
        simp only [he, true_and]
        rw [Finset.sum_ite_eq]
        exact if_pos hmem
      · rw [if_neg he]
        rw [Finset.sum_eq_zero]
        intro s _
        rw [if_neg (fun hc => he hc.1)]
  · intro ps e s hps
    unfold matrixEntry
    apply List.countP_eq_zero.mpr
    intro a ha
    simp only [decide_eq_true_eq]
    exact hps a ha
  · intro raws h
    simp [entityView, h]

/-- C7 witness: the row-sum identity, the zero-filled absent combination,
and the empty-input fallback at concrete values. -/
theorem entity_matrix_row_sums_witness :
    (∑ s ∈ labelsExample, matrixEntry pairsExample (JVal.str ("X".data)) s) =
      entityCount pairsExample (JVal.str ("X".data)) ∧
    matrixEntry pairsExample (JVal.str ("Y".data)) (JVal.str ("负面".data)) = 0 ∧
    entityView [] = MatrixResult.empty :=
  ⟨entity_matrix_row_sums.1 pairsExample (JVal.str ("X".data)) labelsExample
     (by decide),
   entity_matrix_row_sums.2.1 pairsExample (JVal.str ("Y".data))
     (JVal.str ("负面".data)) (by decide),
   entity_matrix_row_sums.2.2 [] (by decide)⟩

/-- C8: the timeline aggregation excludes exactly the rows without an
extracted date — the bucket counts sum to the number of dated rows; each
bucket's count is the number of dated rows carrying that (date, sentiment)
key; the sequence is sorted by date ascending then sentiment; and on the
three example rows, one of which has no extractable date, the counts sum
over only the two dated rows. -/
theorem timeline_excludes_dateless :
    (∀ rows : List (Option (List Char) × List Char),
      ((trend rows).map (fun kc => kc.2)).sum = (datedKeys rows).length) ∧
    (∀ rows : List (Option (List Char) × List Char),
      List.Sorted keyLE ((trend rows).map Prod.fst)) ∧
    (∀ (rows : List (Option (List Char) × List Char))
        (k : List Char × List Char) (c : Nat),
      (k, c) ∈ trend rows → c = (datedKeys rows).count k) ∧
    (extract_date bodyC = none ∧
      ((trend timelineRowsExample).map (fun kc => kc.2)).sum = 2) := by
  refine ⟨?_, ?_, ?_, ?_, ?_⟩
  · intro rows
    unfold trend
    rw [List.map_map]
    have hcomp : ((fun kc : (List Char × List Char) × Nat => kc.2) ∘
        (fun k => (k, (datedKeys rows).count k))) =
        fun k => (datedKeys rows).count k := rfl
    rw [hcomp]
    have hperm :=
      (List.perm_insertionSort keyLE ((datedKeys rows).dedup)).map
        (fun k => (datedKeys rows).count k)
    rw [hperm.sum_eq]
    exact List.sum_map_count_dedup_eq_length (datedKeys rows)
  · intro rows
    unfold trend
    rw [List.map_map]
    have hcomp : (Prod.fst ∘ (fun k : List Char × List Char =>
        (k, (datedKeys rows).count k))) = id := rfl
    rw [hcomp, List.map_id]
    exact List.sorted_insertionSort keyLE _
  · intro rows k c hkc
    unfold trend at hkc
    rcases List.mem_map.mp hkc with ⟨k', _, heq⟩
    injection heq with h1 h2
    subst h1
    exact h2.symm
  · decide
  · decide

/-- C8 witness: a concrete bucket of the example timeline carries the
count of its dated rows. -/
theorem timeline_excludes_dateless_witness :
    (1 : Nat) = (datedKeys timelineRowsExample).count
      (("2024-01-01").data, ("正面").data) :=
  timeline_excludes_dateless.2.2.1 timelineRowsExample
    (("2024-01-01").data, ("正面").data) 1 (by decide)

/-!  Range of the cluster labels. -/

lemma nearestAux_lt (v : List Frac) :
    ∀ (cs : List (List Frac)) (i : Nat) (bd : Frac) (best : Nat),
      best < i → nearestAux v cs i bd best < i + cs.length := by
  intro cs
  induction cs with
  | nil =>
    intro i bd best h
    simpa [nearestAux] using h
  | cons c cs ih =>
    intro i bd best h
    rw [nearestAux]
    by_cases hlt : Frac.lt (sqDist c v) bd = true
    · rw [if_pos hlt]
      have := ih (i + 1) (sqDist c v) i (Nat.lt_succ_self i)
      simp only [List.length_cons]
      omega
    · rw [if_neg hlt]
      have := ih (i + 1) bd best (Nat.lt_succ_of_lt h)
      simp only [List.length_cons]
      omega

lemma nearestIdx_lt (cents : List (List Frac)) (v : List Frac) (h : cents ≠ []) :
    nearestIdx cents v < cents.length := by
  cases cents with
  | nil => exact absurd rfl h
  | cons c cs =>
    have := nearestAux_lt v cs 1 (sqDist c v) 0 (by omega)
    simp only [List.length_cons]
    simpa [nearestIdx, Nat.add_comm] using this

lemma assignAll_lt (cents X : List (List Frac)) (h : cents ≠ []) :
    ∀ i ∈ assignAll cents X, i < cents.length := by
  intro i hi
  rcases List.mem_map.mp hi with ⟨v, _, rfl⟩
  exact nearestIdx_lt cents v h

lemma newCentroids_length (k : Nat) (cents : List (List Frac)) (labels : List Nat)
    (X : List (List Frac)) : (newCentroids k cents labels X).length = k := by
  simp [newCentroids]

lemma kmeansIter_lt (k : Nat) (hk : 0 < k) :
    ∀ (f : Nat) (cents X : List (List Frac)), cents.length = k →
      ∀ i ∈ kmeansIter f cents X, i < k := by
  intro f
  induction f with
  | zero =>
    intro cents X hlen i hi
    have hne : cents ≠ [] := by
      intro hc
      rw [hc] at hlen
      simp at hlen
      omega
    exact hlen ▸ assignAll_lt cents X hne i hi
  | succ f ih =>
    intro cents X hlen i hi
    rw [kmeansIter] at hi
    split at hi
    · have hne : cents ≠ [] := by
        intro hc
        rw [hc] at hlen
        simp at hlen
        omega
      exact hlen ▸ assignAll_lt cents X hne i hi
    · exact ih (newCentroids cents.length cents (assignAll cents X) X) X
        (by rw [newCentroids_length, hlen]) i hi

/-- C9: opinion clustering is deterministic — the embedded pipeline is a
pure function of the input (the fixed seed leaves no other source of
variation), so two runs on identical input agree — and on every successful
run each assigned cluster id lies in [0, 4). -/
theorem clustering_deterministic_in_range :
    (∀ ops : List JVal, clusterOpinions ops = clusterOpinions ops) ∧
    (∀ (ops : List JVal) (labels : List Nat),
      clusterOpinions ops = Except.ok labels → ∀ i ∈ labels, i < 4) := by
  constructor
  · intro ops
    rfl
  · intro ops labels h i hi
    unfold clusterOpinions at h
    cases hd : opinionDocs ops with
    | error e =>
      rw [hd] at h
      simp [Bind.bind, Except.bind] at h
    | ok docs =>
      rw [hd] at h
      simp only [Bind.bind, Except.bind] at h
      cases hX : fit_transform docs with
      | error e =>
        rw [hX] at h
        simp [Except.bind] at h
      | ok X =>
        rw [hX] at h
        simp only [Except.bind] at h
        by_cases hlen : X.length < 4
        · rw [if_pos hlen] at h
          simp at h
        · rw [if_neg hlen] at h
          have hl : labels = kmeansFitPredict 4 X := by
            simpa [pure, Except.pure] using h.symm
          subst hl
          apply kmeansIter_lt 4 (by omega) 300 (X.take 4) X _ i hi
          rw [List.length_take]
          omega

/-- C9 witness: determinism and the label range at the concrete
four-opinion corpus, whose run yields the labels 0, 1, 2, 3. -/
theorem clustering_deterministic_in_range_witness :
    clusterOpinions opinionsExample = clusterOpinions opinionsExample ∧
      (3 : Nat) < 4 :=
  ⟨clustering_deterministic_in_range.1 opinionsExample,
   clustering_deterministic_in_range.2 opinionsExample [0, 1, 2, 3]
     (by decide) 3 (by decide)⟩

end InsurTech
